import Mathlib

/-!
Verification of the conversation-state and anti-repetition engine of the
live-partner repository (src/actions.py, src/llm.py, src/app.py).

Python strings are modelled as `List Char` (one element per Unicode code
point, matching Python's `len`/slicing semantics).  The language-model
inference call, the OS dialog backends and the random number generator are
external collaborators; they are modelled as explicit oracle parameters
(`gen`, `summarizer`, `pickIdx`, notification/dialog results).  The CSV log
file is modelled at its row-sequence abstraction: a `List LogRecord`
(the header row of the file is outside this abstraction, exactly as
`read_logs` drops it and `write_logs` re-adds it).
-/

/-- Characters of a string literal (Python text as a list of code points). -/
def chars (s : String) : List Char := s.data

/-- Python text. -/
abbrev Str := List Char

/-- Characters treated as whitespace by Python's `str.strip()` (the
common ones; all whitespace appearing in this code base is covered). -/
def pySpaceChars : List Char :=
  [' ', '\t', '\n', '\r', Char.ofNat 11, Char.ofNat 12,
   Char.ofNat 0x85, Char.ofNat 0xA0, Char.ofNat 0x3000]

/-- Python `s.strip(chs)`: remove leading and trailing characters drawn
from `chs`. -/
def pyStripChars (chs : List Char) (s : Str) : Str :=
  ((s.dropWhile (fun c => chs.contains c)).reverse.dropWhile
    (fun c => chs.contains c)).reverse

/-- Python `s.strip()` (no argument: strip whitespace). -/
def pyStrip (s : Str) : Str := pyStripChars pySpaceChars s

/-- Python `l[-n:]`.  Note the Python quirk: `l[-0:]` is the whole list. -/
def pyTail (n : Nat) (l : List α) : List α :=
  if n = 0 then l else l.drop (l.length - n)

/-- Python `s[-n:]` on text. -/
def lastChars (n : Nat) (s : Str) : Str := pyTail n s

/-- Python `sep.join(lines)` for a one-character separator. -/
def listJoin (sep : Char) (lines : List Str) : Str :=
  List.intercalate [sep] lines

/-- Helper of `afterFirstSep`: drop up to and including the first `sep`
(call only when `sep` occurs). -/
def afterFirstSepAux (sep : Char) : Str → Str
  | [] => []
  | c :: rest => if c = sep then rest else afterFirstSepAux sep rest

/-- Python `s.split(sep, 1)[-1]`: the text after the first `sep` when one
occurs, the whole text otherwise. -/
def afterFirstSep (sep : Char) (s : Str) : Str :=
  if s.contains sep then afterFirstSepAux sep s else s

/-- Does `p` start the text `s`?  (Python `s.startswith(p)`.) -/
def leadsWith : Str → Str → Bool
  | [], _ => true
  | _ :: _, [] => false
  | p :: ps, c :: cs => p == c && leadsWith ps cs

/-- Python `a in b` on text: `a` occurs contiguously inside `b`. -/
def occursIn (a : Str) : Str → Bool
  | [] => a == []
  | c :: cs => leadsWith a (c :: cs) || occursIn a cs

/-- Python `s.lower()` (ASCII case folding, the only case folding the
texts of this code base exercise). -/
def lowerStr (s : Str) : Str := s.map Char.toLower

/-- Helper of `pyReplace`: structural recursion on a fuel that starts at
the length of the text; each step consumes one fuel and at least one
character, so the `0` case is never hit from `pyReplace`. -/
def pyReplaceFuel (p : Char) (ps : List Char) (rep : Str) : Nat → Str → Str
  | _, [] => []
  | 0, s => s
  | fuel + 1, c :: rest =>
    if p = c ∧ leadsWith ps rest then
      rep ++ pyReplaceFuel p ps rep fuel (rest.drop ps.length)
    else c :: pyReplaceFuel p ps rep fuel rest

/-- Python `s.replace(pat, rep)` for the non-empty pattern `p :: ps`:
replace every (leftmost, non-overlapping) occurrence. -/
def pyReplace (p : Char) (ps : List Char) (rep : Str) (s : Str) : Str :=
  pyReplaceFuel p ps rep s.length s

/-! ## src/actions.py -/

/-- actions.py `strip_action` depth scan: keep characters at parenthesis
depth 0, consume parentheses, never let the depth go negative (`Nat`
subtraction is exactly Python's `max(depth - 1, 0)`). -/
def dropParens : Str → Nat → Str
  | [], _ => []
  | c :: rest, depth =>
    if c = '(' then dropParens rest (depth + 1)
    else if c = ')' then dropParens rest (depth - 1)
    else if depth = 0 then c :: dropParens rest depth
    else dropParens rest depth

/-- actions.py `strip_action`: remove any parenthesised action annotation;
if no `(` or no `)` occurs, just strip whitespace. -/
def strip_action (text : Str) : Str :=
  if text.contains '(' ∧ text.contains ')' then pyStrip (dropParens text 0)
  else pyStrip text

/-- actions.py `pick_action`: with a non-empty list, pick from the
whitespace-free entries when any exist, else from the original list
(`random.choice(candidates or actions)`); with an empty list return the
fallback.  `idx` is the random-choice oracle (`random.choice(pool)` is
`pool[i]` for a uniformly chosen `i < len(pool)`). -/
def pick_action (actions : List Str) (fallback : Str) (idx : Nat) : Str :=
  if actions ≠ [] then
    let candidates := actions.filter (fun item => pyStrip item ≠ [])
    let pool := if candidates ≠ [] then candidates else actions
    pool.getD (idx % pool.length) []
  else fallback

/-- actions.py `attach_action`: append `(action)` unless the action is
empty. -/
def attach_action (reply : Str) (action : Str) : Str :=
  if action = [] then reply
  else reply ++ '(' :: (action ++ [')'])

/-! ## src/llm.py -/

/-- The backquote character (written by code point to keep the source
free of stray quotes). -/
def backquoteChar : Char := Char.ofNat 96

/-- Apostrophe character. -/
def aposChar : Char := Char.ofNat 39

/-- Double-quote character. -/
def dquoteChar : Char := Char.ofNat 34

/-- llm.py `clean_reply` role-tag removal: the first matching prefix of
`("cat,", "cat:", "猫,", "猫:", "干嘛猫:", "干嘛猫,")` found on the
lower-cased text is sliced off the original text (Python slices by the
prefix length) and the remainder stripped; the loop `break`s after the
first hit. -/
def removeRoleTag (s : Str) : Str :=
  let low := lowerStr s
  if leadsWith (chars "cat,") low then pyStrip (s.drop 4)
  else if leadsWith (chars "cat:") low then pyStrip (s.drop 4)
  else if leadsWith (chars "猫,") low then pyStrip (s.drop 2)
  else if leadsWith (chars "猫:") low then pyStrip (s.drop 2)
  else if leadsWith (chars "干嘛猫:") low then pyStrip (s.drop 4)
  else if leadsWith (chars "干嘛猫,") low then pyStrip (s.drop 4)
  else s

/-- llm.py `clean_reply` up to (but excluding) the final length cap:
strip, remove chat-template tokens, remove a role prefix, mend
backquoted parentheses, strip the action annotation and quote
characters, and prepend `干嘛呀……` when `干嘛` is absent. -/
def clean_reply_core (text : Str) : Str :=
  let cleaned := pyStrip text
  let cleaned := pyReplace '<' (chars "|im_end|>") [] cleaned
  let cleaned := pyReplace '<' (chars "|im_start|>") [] cleaned
  let cleaned := pyReplace '<' (chars "|endoftext|>") [] cleaned
  let cleaned := removeRoleTag cleaned
  let cleaned := pyReplace backquoteChar (chars "(") (chars "(") cleaned
  let cleaned := pyReplace ')' [backquoteChar] (chars ")") cleaned
  let cleaned := pyStripChars [' ', '\n', '\r', '\t', dquoteChar, aposChar]
    (strip_action cleaned)
  if occursIn (chars "干嘛") cleaned then cleaned else chars "干嘛呀……" ++ cleaned

/-- llm.py `clean_reply`: the cleaned text, capped at 50 characters. -/
def clean_reply (text : Str) : Str :=
  let cleaned := clean_reply_core text
  if cleaned.length > 50 then cleaned.take 50 else cleaned

-- sanity examples (Python cross-checked)
example : strip_action (chars " hi(ok) ") = chars "hi" := by decide
example : strip_action (chars "a)b(c") = chars "ab" := by decide
example : strip_action (chars "a(b") = chars "a(b" := by decide
example : attach_action (chars "hi") (chars "ok") = chars "hi(ok)" := by decide
example : pick_action [] (chars "x") 0 = chars "x" := by decide
example : pick_action [chars ""] (chars "x") 0 = chars "" := by decide
example : pick_action [chars " ", chars "a"] (chars "x") 0 = chars "a" := by decide
example : clean_reply (chars "cat: 你好呀") = chars "干嘛呀……你好呀" := by decide
example : clean_reply (chars "干嘛呀(摸头)") = chars "干嘛呀" := by decide
example : (clean_reply (chars "abcdefghijklmnopqrstuvwxyzabcdefghijklmnopqrstuvwxyz")).length = 50 := by decide
example : pyReplace '<' (chars "|im_end|>") [] (chars "hi<|im_end|>x") = chars "hix" := by decide
example : occursIn (chars "ab") (chars "xaby") = true := by decide
example : occursIn (chars "ab") (chars "xay") = false := by decide
example : afterFirstSep '\n' (chars "ab") = chars "ab" := by decide
example : afterFirstSep '\n' (chars "a\nb\nc") = chars "b\nc" := by decide
example : pyTail 0 [1, 2, 3] = [1, 2, 3] := by decide
example : pyTail 2 [1, 2, 3] = [2, 3] := by decide

/-! ## src/app.py — repetition guard -/

/-- The punctuation/whitespace characters `normalize_for_compare`
removes, in source order. -/
def punctList : List Char :=
  ['，', '。', '！', '？', '、', ',', '.', '!', '?', '~', ' ']

/-- The sequence of `cleaned.replace(ch, "")` calls of
`normalize_for_compare` (replacing a one-character pattern by the empty
text is a filter). -/
def remPunct (s : Str) : Str :=
  punctList.foldl (fun acc ch => acc.filter (fun c => c ≠ ch)) s

/-- app.py `normalize_for_compare`: strip the action annotation, remove
the punctuation list, lower-case. -/
def normalize_for_compare (text : Str) : Str :=
  lowerStr (remPunct (strip_action text))

/-- app.py `is_repetitive`: empty candidate, empty recent list or empty
normalized candidate are never repetitive; otherwise the candidate is
repetitive when some recent entry with a non-empty normal form equals,
contains or is contained in the normalized candidate. -/
def is_repetitive (candidate : Str) (recent : List Str) : Bool :=
  if candidate = [] ∨ recent = [] then false
  else
    let cand := normalize_for_compare candidate
    if cand = [] then false
    else recent.any (fun item =>
      let ref := normalize_for_compare item
      if ref = [] then false
      else cand == ref || occursIn cand ref || occursIn ref cand)

/-! ## src/app.py — log store and context builder -/

/-- One CSV row of the log below the header: timestamp, direction,
content. -/
structure LogRecord where
  ts : Str
  dir : Str
  content : Str
deriving DecidableEq

/-- The canonical "none" sentinel `无`. -/
def noneStr : Str := chars "无"

/-- app.py `build_history_context`, steps 1-3: last summary (if any),
the last `max_turns * 2` dialog rows as `direction: content` lines,
joined and prefixed by `摘要：<summary>`. -/
def combinedContext (rows : List LogRecord) (max_turns : Nat) : Str :=
  let summary_lines := (rows.filter (fun r => r.dir = chars "summary")).map
    (fun r => r.content)
  let summary := summary_lines.getLast?.getD []
  let dialog_rows := rows.filter
    (fun r => r.dir = chars "user" ∨ r.dir = chars "cat")
  let tl := pyTail (max_turns * 2) dialog_rows
  let lines := tl.map (fun r => r.dir ++ chars ": " ++ r.content)
  let history := pyStrip (listJoin '\n' lines)
  if summary ≠ [] then pyStrip (chars "摘要：" ++ summary ++ '\n' :: history)
  else history

/-- app.py `build_history_context`: the combined text, truncated to the
trailing `max_chars` characters with everything up to the first newline
of the tail dropped, `无` when empty. -/
def build_history_context (rows : List LogRecord) (max_turns max_chars : Nat) :
    Str :=
  if rows = [] then noneStr
  else
    let combined := combinedContext rows max_turns
    let combined :=
      if combined.length > max_chars then
        pyStrip (afterFirstSep '\n' (lastChars max_chars combined))
      else combined
    if combined = [] then noneStr else combined

/-- app.py `build_session_context`: same shape over the in-memory session
entries `(role, text)`. -/
def build_session_context (session : List (Str × Str)) (max_turns max_chars : Nat) :
    Str :=
  if session = [] then noneStr
  else
    let tl := pyTail (max_turns * 2) session
    let lines := tl.map (fun rt => rt.1 ++ chars ": " ++ rt.2)
    let combined := pyStrip (listJoin '\n' lines)
    let combined :=
      if combined.length > max_chars then
        pyStrip (afterFirstSep '\n' (lastChars max_chars combined))
      else combined
    if combined = [] then noneStr else combined

/-- app.py `get_recent_cat_replies`: the action-stripped contents of the
last `limit` rows with direction `cat`. -/
def get_recent_cat_replies (rows : List LogRecord) (limit : Nat) : List Str :=
  pyTail limit ((rows.filter (fun r => r.dir = chars "cat")).map
    (fun r => strip_action r.content))

/-- The `direction: content` lines fed to the summarizer by
`summarize_logs_if_needed`. -/
def formatRows (rows : List LogRecord) : Str :=
  listJoin '\n' (rows.map (fun r => r.dir ++ chars ": " ++ r.content))

/-- app.py `summarize_logs_if_needed` at the row-sequence abstraction:
a no-op unless strictly more than `max_records` rows are persisted, else
replace the oldest `compress_batch` rows by one `summary` row produced by
the external summarizer (the fixed instruction wrapper around the
formatted rows and the model call are folded into the opaque `summarizer`
collaborator; the code strips its output). -/
def summarize_logs_if_needed (summarizer : Str → Str) (rows : List LogRecord)
    (max_records compress_batch : Nat) (now : Str) : List LogRecord :=
  if rows.length ≤ max_records then rows
  else
    let target := rows.take compress_batch
    let remainder := rows.drop compress_batch
    let summary := pyStrip (summarizer (formatRows target))
    ⟨now, chars "summary", summary⟩ :: remainder

-- sanity examples
example : normalize_for_compare (chars "你好，！ABC~") = chars "你好abc" := by decide
example : is_repetitive (chars "你好！") [chars "喂，你好"] = true := by decide
example : is_repetitive (chars "abc") [chars "xyz"] = false := by decide
example : is_repetitive (chars ".") [chars "x"] = false := by decide
example : build_history_context [⟨chars "t", chars "user", chars "aaaaaaaa"⟩] 1 5
    = chars "aaaaa" := by decide
example : build_history_context [] 1 5 = noneStr := by decide
example : build_history_context
    [⟨chars "t", chars "summary", chars "s1"⟩, ⟨chars "t", chars "user", chars "hi"⟩]
    1 400 = chars "摘要：s1\nuser: hi" := by decide

/-! ## src/app.py — turn engine -/

/-- The configuration fields of `AppConfig` the conversation cycle reads
(model path, timing, dialog-backend and prompt-file fields feed only the
external collaborators). -/
structure AppConfig where
  actions : List Str
  max_retries : Nat
  history_max_turns : Nat
  history_max_chars : Nat
  max_records : Nat
  compress_batch : Nat
deriving DecidableEq

/-- The fixed fallback action `扶正牛仔帽`. -/
def defaultActionStr : Str := chars "扶正牛仔帽"

/-- A `system` log row. -/
def sysRow (now msg : Str) : LogRecord := ⟨now, chars "system", msg⟩

/-- Helper of `genValidate`: the `for attempt in range(...)` loop with
`break`.  `i` is the index of the next generation call, `fuel` the
remaining attempts, `reply` the value left from the previous iteration
(initially the empty text).  Returns the accepted reply and the number
of generation attempts made. -/
def genValidateGo (gen : Nat → Str) (recent : List Str) :
    Nat → Nat → Str → Str × Nat
  | i, 0, reply => (reply, i)
  | i, fuel + 1, _ =>
    let r := gen i
    if is_repetitive r recent then genValidateGo gen recent (i + 1) fuel r
    else (r, i + 1)

/-- The generate-and-validate loop of `run_cycle` (both the first-turn
copy and the continuation copy): up to `max_retries` generation calls,
stopping at the first candidate the repetition guard does not flag;
repetition never fails the loop.  `gen i` is the (cleaned) reply of the
`i`-th generation call. -/
def genValidate (gen : Nat → Str) (recent : List Str) (max_retries : Nat) :
    Str × Nat :=
  genValidateGo gen recent 0 max_retries []

/-- How one conversation cycle ended.  The four terminal branches of
`run_cycle`, plus `awaitingUser` for the modelling artifact of the
supplied dialog-result trace running out while the user keeps the
conversation going (the real loop would block on the next dialog). -/
inductive CycleOutcome where
  | notClicked
  | firstDeclined
  | emptyInput
  | contDeclined
  | awaitingUser
deriving DecidableEq

/-- Result of one conversation cycle: the persisted rows after the cycle
(`log`, compacted when the compaction check ran), the persisted rows
before any compaction (`trace`), how the cycle ended, and whether
`summarize_logs_if_needed` was invoked. -/
structure CycleResult where
  log : List LogRecord
  trace : List LogRecord
  outcome : CycleOutcome
  summarized : Bool
deriving DecidableEq

/-- The `while keep_talking` loop of `run_cycle`.  `dialogs` is the
oracle trace of `display_dialog` results `(sent, text)`; `rawInput` the
pending user text; `genBase`/`pickBase` offset the generation and
random-pick oracles past the calls already made.  On the two `break`
branches the loop falls through to `summarize_logs_if_needed`. -/
def cycleLoop (cfg : AppConfig) (gen : Nat → Str) (pickIdx : Nat → Nat)
    (summarizer : Str → Str) (now : Str) :
    List (Bool × Str) → Str → List LogRecord → List (Str × Str) → Nat → Nat →
    CycleResult
  | dialogs, rawInput, log, session, genBase, pickBase =>
    let user_input := pyStrip rawInput
    if user_input = [] then
      let log := log ++ [sysRow now (chars "用户未输入内容")]
      ⟨summarize_logs_if_needed summarizer log cfg.max_records
        cfg.compress_batch now, log, .emptyInput, true⟩
    else
      let log := log ++ [⟨now, chars "user", user_input⟩]
      let _behavior := pick_action cfg.actions defaultActionStr (pickIdx pickBase)
      let session := session ++ [(chars "user", user_input)]
      let _session_text := build_session_context session cfg.history_max_turns
        cfg.history_max_chars
      let recent := get_recent_cat_replies log (cfg.history_max_turns * 2)
      let _avoid_text := listJoin '\n' (pyTail 2 recent)
      let rn := genValidate (fun i => clean_reply (gen (genBase + i))) recent
        cfg.max_retries
      let action := pick_action cfg.actions defaultActionStr
        (pickIdx (pickBase + 1))
      let final_reply := attach_action rn.1 action
      let log := log ++ [⟨now, chars "cat", final_reply⟩]
      let session := session ++ [(chars "cat", rn.1)]
      match dialogs with
      | [] => ⟨log, log, .awaitingUser, false⟩
      | (sent, txt) :: rest =>
        if sent then
          cycleLoop cfg gen pickIdx summarizer now rest txt log session
            (genBase + rn.2) (pickBase + 2)
        else
          let log := log ++ [sysRow now (chars "用户关闭弹窗")]
          ⟨summarize_logs_if_needed summarizer log cfg.max_records
            cfg.compress_batch now, log, .contDeclined, true⟩

/-- app.py `run_cycle` with the external collaborators as oracles:
`gen i` is the raw model output of the `i`-th generation call (the code
applies `clean_reply` to it), `pickIdx` the random indices of the
successive `pick_action` calls, `notifyRes` the `(sent, text, clicked)`
result of `notify_then_dialog`, and `dialogs` the results of the
successive continuation `display_dialog` calls.  `log0` is the persisted
log at cycle start; timestamps are the opaque `now`.  On the
`not clicked` and `not sent` first-turn branches the function returns
without invoking the compaction check (app.py lines 274-282); only the
fall-through from the `while` loop reaches `summarize_logs_if_needed`
(line 333).  The cooldown `time.sleep` has no effect on this
abstraction. -/
def run_cycle (cfg : AppConfig) (gen : Nat → Str) (pickIdx : Nat → Nat)
    (summarizer : Str → Str) (now : Str) (notifyRes : Bool × Str × Bool)
    (dialogs : List (Bool × Str)) (log0 : List LogRecord) : CycleResult :=
  let _behavior := pick_action cfg.actions defaultActionStr (pickIdx 0)
  let _session_text := build_session_context [] cfg.history_max_turns
    cfg.history_max_chars
  let recent := get_recent_cat_replies log0 (cfg.history_max_turns * 2)
  let _avoid_text := listJoin '\n' (pyTail 2 recent)
  let rn := genValidate (fun i => clean_reply (gen i)) recent cfg.max_retries
  let action := pick_action cfg.actions defaultActionStr (pickIdx 1)
  let final_reply := attach_action rn.1 action
  let log1 := log0 ++ [⟨now, chars "cat", final_reply⟩]
  let session1 := [(chars "cat", rn.1)]
  let sent := notifyRes.1
  let user_input := notifyRes.2.1
  let clicked := notifyRes.2.2
  if clicked = false then
    let log := log1 ++ [sysRow now (chars "用户未点击通知")]
    ⟨log, log, .notClicked, false⟩
  else if sent = false then
    let log := log1 ++ [sysRow now (chars "用户关闭弹窗")]
    ⟨log, log, .firstDeclined, false⟩
  else
    cycleLoop cfg gen pickIdx summarizer now dialogs user_input log1 session1
      rn.2 2

-- sanity examples for the engine model
example :
    (run_cycle ⟨[], 3, 1, 400, 10, 5⟩ (fun _ => chars "喵喵喵") (fun _ => 0)
      (fun _ => chars "S") (chars "t") (false, [], false) [] []).outcome
    = CycleOutcome.notClicked := by decide
example :
    (run_cycle ⟨[], 3, 1, 400, 10, 5⟩ (fun _ => chars "喵喵喵") (fun _ => 0)
      (fun _ => chars "S") (chars "t") (false, [], false) [] []).summarized
    = false := by decide
example :
    (run_cycle ⟨[], 3, 1, 400, 10, 5⟩ (fun _ => chars "喵喵喵") (fun _ => 0)
      (fun _ => chars "S") (chars "t") (true, chars "  ", true) [] []).outcome
    = CycleOutcome.emptyInput := by decide
example :
    (run_cycle ⟨[], 3, 1, 400, 10, 5⟩ (fun _ => chars "喵喵喵") (fun _ => 0)
      (fun _ => chars "S") (chars "t") (true, chars "  ", true) [] []).summarized
    = true := by decide
example :
    (run_cycle ⟨[], 3, 1, 400, 10, 5⟩ (fun _ => chars "喵喵喵") (fun _ => 0)
      (fun _ => chars "S") (chars "t") (true, chars "hi", true)
      [(false, [])] []).outcome = CycleOutcome.contDeclined := by decide
example :
    (run_cycle ⟨[], 3, 1, 400, 10, 5⟩ (fun _ => chars "喵喵喵") (fun _ => 0)
      (fun _ => chars "S") (chars "t") (true, chars "hi", true) []
      []).outcome = CycleOutcome.awaitingUser := by decide
example :
    genValidate (fun _ => chars "x") [chars "x!"] 3 = (chars "x", 3) := by decide
example :
    genValidate (fun i => if i = 0 then chars "x" else chars "y") [chars "x!"] 3
    = (chars "y", 2) := by decide

/-! ## Helper lemmas -/

/-- `List.contains` agrees with membership on characters. -/
theorem containsMem {l : List Char} {c : Char} : l.contains c = true ↔ c ∈ l :=
  List.elem_iff

/-! ## Claim C7 -/

/-- Claim C7: for every log whose record count is at most `max_records`
(in particular exactly `max_records`), the compaction check is a no-op on
the persisted record sequence; compaction triggers only for a strictly
greater count. -/
theorem C7_compaction_noop (summarizer : Str → Str) (rows : List LogRecord)
    (max_records compress_batch : Nat) (now : Str)
    (h : rows.length ≤ max_records) :
    summarize_logs_if_needed summarizer rows max_records compress_batch now
      = rows := by
  simp [summarize_logs_if_needed, h]

/-- Witness for C7 at a log holding exactly `max_records` records. -/
theorem C7_compaction_noop_witness :
    summarize_logs_if_needed (fun _ => chars "S")
      [⟨chars "t1", chars "user", chars "a"⟩, ⟨chars "t2", chars "cat", chars "b"⟩]
      2 1 (chars "t3")
    = [⟨chars "t1", chars "user", chars "a"⟩, ⟨chars "t2", chars "cat", chars "b"⟩] :=
  C7_compaction_noop _ _ _ _ _ (by decide)

/-! ## Claim C8 -/

/-- Claim C8: when strictly more than `max_records` records are
persisted, compaction leaves `1 + (original_len - compress_batch)`
records, the first being a `summary` record, and the rest exactly the
original records past the oldest `compress_batch`, in order. -/
theorem C8_compaction_shape (summarizer : Str → Str) (rows : List LogRecord)
    (max_records compress_batch : Nat) (now : Str)
    (h : rows.length > max_records) :
    (summarize_logs_if_needed summarizer rows max_records compress_batch
        now).length = 1 + (rows.length - compress_batch) ∧
    (summarize_logs_if_needed summarizer rows max_records compress_batch
        now).head?.map LogRecord.dir = some (chars "summary") ∧
    (summarize_logs_if_needed summarizer rows max_records compress_batch
        now).tail = rows.drop compress_batch := by
  have hn : ¬ rows.length ≤ max_records := by omega
  simp only [summarize_logs_if_needed, if_neg hn]
  refine ⟨?_, ?_, ?_⟩
  · simp [List.length_drop]
    omega
  · rfl
  · rfl

/-- Witness for C8: five records, threshold two, batch three. -/
theorem C8_compaction_shape_witness :
    (summarize_logs_if_needed (fun _ => chars "S")
      [⟨chars "t", chars "user", chars "a"⟩, ⟨chars "t", chars "cat", chars "b"⟩,
       ⟨chars "t", chars "user", chars "c"⟩, ⟨chars "t", chars "cat", chars "d"⟩,
       ⟨chars "t", chars "user", chars "e"⟩] 2 3 (chars "n")).length
      = 1 + (5 - 3) ∧
    (summarize_logs_if_needed (fun _ => chars "S")
      [⟨chars "t", chars "user", chars "a"⟩, ⟨chars "t", chars "cat", chars "b"⟩,
       ⟨chars "t", chars "user", chars "c"⟩, ⟨chars "t", chars "cat", chars "d"⟩,
       ⟨chars "t", chars "user", chars "e"⟩] 2 3 (chars "n")).head?.map
        LogRecord.dir = some (chars "summary") ∧
    (summarize_logs_if_needed (fun _ => chars "S")
      [⟨chars "t", chars "user", chars "a"⟩, ⟨chars "t", chars "cat", chars "b"⟩,
       ⟨chars "t", chars "user", chars "c"⟩, ⟨chars "t", chars "cat", chars "d"⟩,
       ⟨chars "t", chars "user", chars "e"⟩] 2 3 (chars "n")).tail
      = [⟨chars "t", chars "cat", chars "d"⟩, ⟨chars "t", chars "user", chars "e"⟩] := by
  have h := C8_compaction_shape (fun _ => chars "S")
    [⟨chars "t", chars "user", chars "a"⟩, ⟨chars "t", chars "cat", chars "b"⟩,
     ⟨chars "t", chars "user", chars "c"⟩, ⟨chars "t", chars "cat", chars "d"⟩,
     ⟨chars "t", chars "user", chars "e"⟩] 2 3 (chars "n") (by decide)
  exact ⟨h.1, h.2.1, by rw [h.2.2]; decide⟩

/-! ## Claim C10 -/

/-- Claim C10: `clean_reply` always returns at most 50 characters, and
any cleaned text longer than 50 characters is cut to its first 50
characters (the cap is the last step, before the reply is persisted or
shown). -/
theorem C10_clean_reply_cap (text : Str) :
    (clean_reply text).length ≤ 50 ∧
    ((clean_reply_core text).length > 50 →
      clean_reply text = (clean_reply_core text).take 50) := by
  constructor
  · simp only [clean_reply]
    split
    · simp [List.length_take]
    · omega
  · intro h
    simp only [clean_reply]
    rw [if_pos h]

/-- Witness for C10 on a 52-character raw output. -/
theorem C10_clean_reply_cap_witness :
    (clean_reply
      (chars "abcdefghijklmnopqrstuvwxyzabcdefghijklmnopqrstuvwxyz")).length
      ≤ 50 ∧
    clean_reply (chars "abcdefghijklmnopqrstuvwxyzabcdefghijklmnopqrstuvwxyz")
      = (clean_reply_core
          (chars "abcdefghijklmnopqrstuvwxyzabcdefghijklmnopqrstuvwxyz")).take 50 :=
  ⟨(C10_clean_reply_cap _).1, (C10_clean_reply_cap _).2 (by decide)⟩

/-! ## Claim C9 -/

/-- The attempt counter of the retry loop advances by at most the
remaining fuel. -/
theorem genValidateGo_le (gen : Nat → Str) (recent : List Str) :
    ∀ (fuel i : Nat) (reply : Str),
      (genValidateGo gen recent i fuel reply).2 ≤ i + fuel := by
  intro fuel
  induction fuel with
  | zero => intro i reply; simp [genValidateGo]
  | succ f ih =>
    intro i reply
    simp only [genValidateGo]
    split
    · exact le_trans (ih (i + 1) (gen i)) (by omega)
    · show i + 1 ≤ i + (f + 1)
      omega

/-- When every remaining candidate is flagged repetitive, the loop
exhausts its fuel and keeps the last candidate generated. -/
theorem genValidateGo_all_rep (gen : Nat → Str) (recent : List Str) :
    ∀ (fuel i : Nat) (reply : Str), 0 < fuel →
      (∀ j, i ≤ j → j < i + fuel → is_repetitive (gen j) recent = true) →
      genValidateGo gen recent i fuel reply = (gen (i + fuel - 1), i + fuel) := by
  intro fuel
  induction fuel with
  | zero => omega
  | succ f ih =>
    intro i reply _ hall
    have hi : is_repetitive (gen i) recent = true := hall i le_rfl (by omega)
    simp only [genValidateGo, hi, if_pos]
    rcases Nat.eq_zero_or_pos f with hf | hf
    · subst hf
      simp [genValidateGo]
    · have e1 : i + 1 + f - 1 = i + (f + 1) - 1 := by omega
      have e2 : i + 1 + f = i + (f + 1) := by omega
      rw [ih (i + 1) (gen i) hf (fun j h1 h2 => hall j (by omega) (by omega)),
        e1, e2]

/-- The loop stops at the first candidate the guard does not flag. -/
theorem genValidateGo_first_ok (gen : Nat → Str) (recent : List Str) :
    ∀ (fuel i : Nat) (reply : Str) (k : Nat), i ≤ k → k < i + fuel →
      (∀ j, i ≤ j → j < k → is_repetitive (gen j) recent = true) →
      is_repetitive (gen k) recent = false →
      genValidateGo gen recent i fuel reply = (gen k, k + 1) := by
  intro fuel
  induction fuel with
  | zero => omega
  | succ f ih =>
    intro i reply k hik hk hbefore hkok
    rcases Nat.eq_or_lt_of_le hik with heq | hlt
    · subst heq
      simp [genValidateGo, hkok]
    · have hi : is_repetitive (gen i) recent = true := hbefore i le_rfl hlt
      simp only [genValidateGo, hi, if_pos]
      exact ih (i + 1) (gen i) k hlt (by omega)
        (fun j h1 h2 => hbefore j (by omega) h2) hkok

/-- Claim C9: the generate-and-validate loop makes at most `max_retries`
generation attempts; it stops at the first candidate the repetition
guard does not flag (accepting it); and when every candidate is flagged
it still accepts the last candidate produced — the loop is a total
function, so exhausting the retries never raises or fails the cycle. -/
theorem C9_generate_validate (gen : Nat → Str) (recent : List Str)
    (max_retries : Nat) :
    (genValidate gen recent max_retries).2 ≤ max_retries ∧
    (0 < max_retries →
      (∀ i, i < max_retries → is_repetitive (gen i) recent = true) →
      genValidate gen recent max_retries = (gen (max_retries - 1), max_retries)) ∧
    (∀ k, k < max_retries →
      (∀ j, j < k → is_repetitive (gen j) recent = true) →
      is_repetitive (gen k) recent = false →
      genValidate gen recent max_retries = (gen k, k + 1)) := by
  refine ⟨?_, ?_, ?_⟩
  · have := genValidateGo_le gen recent max_retries 0 []
    simpa [genValidate] using this
  · intro hpos hall
    have := genValidateGo_all_rep gen recent max_retries 0 [] hpos
      (fun j _ h2 => hall j (by omega))
    simpa [genValidate] using this
  · intro k hk hbefore hkok
    have := genValidateGo_first_ok gen recent max_retries 0 [] k (by omega)
      (by omega) (fun j _ h2 => hbefore j h2) hkok
    simpa [genValidate] using this

/-- Witness for C9: three identical flagged candidates are exhausted and
the third is accepted; a fresh candidate at attempt 1 is accepted at
attempt 2. -/
theorem C9_generate_validate_witness :
    genValidate (fun _ => chars "x") [chars "x!"] 3 = (chars "x", 3) ∧
    genValidate (fun i => if i = 0 then chars "x" else chars "y") [chars "x!"] 3
      = (chars "y", 2) := by
  constructor
  · exact (C9_generate_validate (fun _ => chars "x") [chars "x!"] 3).2.1
      (by decide) (by decide)
  · exact (C9_generate_validate (fun i => if i = 0 then chars "x" else chars "y")
      [chars "x!"] 3).2.2 1 (by decide) (by decide) (by decide)

/-! ## Claim C6 -/

/-- Counterexample to C6 as stated for all texts: `normalize` of `"."`
is empty, and the empty text is a substring of `normalize "x" = "x"`,
yet the guard treats an empty-normalized candidate (or reference) as
never repetitive, so both directions return `false`. -/
theorem C6_counterexample :
    occursIn (normalize_for_compare (chars "."))
      (normalize_for_compare (chars "x")) = true ∧
    is_repetitive (chars ".") [chars "x"] = false ∧
    is_repetitive (chars "x") [chars "."] = false := by decide

/-- A non-empty text cannot occur inside the empty text. -/
theorem occursIn_nil_iff (a : Str) : occursIn a [] = true ↔ a = [] := by
  simp [occursIn]

/-- Claim C6 amended: for texts `A`, `B` whose normal forms are
non-empty (the guard skips empty normal forms), if `normalize(A)` is a
substring of `normalize(B)` then the guard flags `A` against `[B]` and
`B` against `[A]`. -/
theorem C6_substring_repetitive (A B : Str)
    (hA : normalize_for_compare A ≠ [])
    (hocc : occursIn (normalize_for_compare A) (normalize_for_compare B) = true) :
    is_repetitive A [B] = true ∧ is_repetitive B [A] = true := by
  have hB : normalize_for_compare B ≠ [] := by
    intro hb
    rw [hb] at hocc
    exact hA ((occursIn_nil_iff _).mp hocc)
  have hAne : A ≠ [] := by
    intro h
    exact hA (by rw [h]; decide)
  have hBne : B ≠ [] := by
    intro h
    exact hB (by rw [h]; decide)
  constructor
  · simp only [is_repetitive, List.any_cons, List.any_nil]
    rw [if_neg (by simp [hAne]), if_neg hA, if_neg hB]
    simp [hocc]
  · simp only [is_repetitive, List.any_cons, List.any_nil]
    rw [if_neg (by simp [hBne]), if_neg hB, if_neg hA]
    simp [hocc]

/-- Witness for C6 amended: `normalize "x!" = "x"` occurs in
`normalize "ax" = "ax"`. -/
theorem C6_substring_repetitive_witness :
    is_repetitive (chars "x!") [chars "ax"] = true ∧
    is_repetitive (chars "ax") [chars "x!"] = true :=
  C6_substring_repetitive (chars "x!") (chars "ax") (by decide) (by decide)

/-! ## Claim C4 -/

/-- Counterexample to C4 as stated: `" hi"` contains no parentheses, yet
the round trip returns `"hix"` — the final `strip()` of `strip_action`
eats the leading whitespace of the reply, and the `)` inside the action
closes the annotation early so the rest of the action leaks into the
text. -/
theorem C4_counterexample :
    (chars " hi").contains '(' = false ∧ (chars " hi").contains ')' = false ∧
    strip_action (attach_action (chars " hi") (chars ")x")) = chars "hix" ∧
    strip_action (attach_action (chars " hi") (chars ")x")) ≠ chars " hi" := by
  decide

/-- The depth scan copies a parenthesis-free block at depth 0. -/
theorem dropParens_append_clean (s : Str)
    (hs : ∀ c ∈ s, c ≠ '(' ∧ c ≠ ')') (t : Str) :
    dropParens (s ++ t) 0 = s ++ dropParens t 0 := by
  induction s with
  | nil => simp
  | cons c rest ih =>
    have hc := hs c (by simp)
    have hrest : ∀ d ∈ rest, d ≠ '(' ∧ d ≠ ')' := fun d hd => hs d (by simp [hd])
    simp [dropParens, hc.1, hc.2, ih hrest]

/-- The depth scan drops a parenthesis-free block at positive depth. -/
theorem dropParens_append_deep (s : Str)
    (hs : ∀ c ∈ s, c ≠ '(' ∧ c ≠ ')') (t : Str) (d : Nat) (hd : d ≠ 0) :
    dropParens (s ++ t) d = dropParens t d := by
  induction s with
  | nil => simp
  | cons c rest ih =>
    have hc := hs c (by simp)
    have hrest : ∀ e ∈ rest, e ≠ '(' ∧ e ≠ ')' := fun e he => hs e (by simp [he])
    simp [dropParens, hc.1, hc.2, hd, ih hrest]

/-- A `contains = false` hypothesis turned element-wise. -/
theorem not_mem_of_contains_false {l : List Char} {c : Char}
    (h : l.contains c = false) : c ∉ l := by
  intro hm
  rw [containsMem.mpr hm] at h
  cases h

/-- Claim C4 amended: the round trip `strip_action (attach_action r a) = r`
holds for replies `r` without parentheses *and without leading or
trailing whitespace*, and actions `a` without parentheses (the
counterexample shows both extra conditions are needed). -/
theorem C4_round_trip (r a : Str)
    (hr1 : r.contains '(' = false) (hr2 : r.contains ')' = false)
    (hrs : pyStrip r = r)
    (ha1 : a.contains '(' = false) (ha2 : a.contains ')' = false) :
    strip_action (attach_action r a) = r := by
  have hrmem : ∀ c ∈ r, c ≠ '(' ∧ c ≠ ')' := fun c hc =>
    ⟨fun h => not_mem_of_contains_false hr1 (h ▸ hc),
     fun h => not_mem_of_contains_false hr2 (h ▸ hc)⟩
  have hamem : ∀ c ∈ a, c ≠ '(' ∧ c ≠ ')' := fun c hc =>
    ⟨fun h => not_mem_of_contains_false ha1 (h ▸ hc),
     fun h => not_mem_of_contains_false ha2 (h ▸ hc)⟩
  rcases eq_or_ne a [] with hae | hane
  · subst hae
    have hat : attach_action r [] = r := by simp [attach_action]
    rw [hat]
    simp only [strip_action]
    rw [if_neg, hrs]
    intro hb
    exact not_mem_of_contains_false hr1 (containsMem.mp hb.1)
  · simp only [attach_action, if_neg hane, strip_action]
    rw [if_pos]
    · have h1 : dropParens (r ++ '(' :: (a ++ [')'])) 0
          = r ++ dropParens ('(' :: (a ++ [')'])) 0 :=
        dropParens_append_clean r hrmem _
      have h2 : dropParens ('(' :: (a ++ [')'])) 0
          = dropParens (a ++ [')']) 1 := by
        simp [dropParens]
      have h3 : dropParens (a ++ [')']) 1 = dropParens [')'] 1 :=
        dropParens_append_deep a hamem [')'] 1 (by omega)
      have h4 : dropParens [')'] 1 = ([] : Str) := by decide
      rw [h1, h2, h3, h4, List.append_nil, hrs]
    · constructor
      · exact containsMem.mpr (by simp)
      · exact containsMem.mpr (by simp)

/-- Witness for C4 amended at `r = "hi"`, `a = "ok"`. -/
theorem C4_round_trip_witness :
    strip_action (attach_action (chars "hi") (chars "ok")) = chars "hi" :=
  C4_round_trip (chars "hi") (chars "ok") (by decide) (by decide) (by decide)
    (by decide) (by decide)

/-! ## Claim C3 -/

/-- Counterexample to C3 as stated: a list holding only the empty entry
is not empty, so `pick_action` draws from `candidates or actions =
actions` and returns the empty entry, not the fallback. -/
theorem C3_counterexample :
    pick_action [[]] defaultActionStr 0 = [] ∧
    ([] : Str) ≠ defaultActionStr := by decide

/-- Appending twice still extends the original list. -/
theorem extendsBy2 (l a b : List α) : ∃ e, (l ++ a) ++ b = l ++ e :=
  ⟨a ++ b, List.append_assoc l a b⟩

/-- Appending once extends the original list. -/
theorem extendsBy1 (l a : List α) : ∃ e, l ++ a = l ++ e := ⟨a, rfl⟩

/-- Extension is transitive. -/
theorem extendsTrans {α : Type} {t l2 l : List α} (h1 : ∃ e, t = l2 ++ e)
    (h2 : ∃ e, l2 = l ++ e) : ∃ e, t = l ++ e := by
  obtain ⟨e1, r1⟩ := h1
  obtain ⟨e2, r2⟩ := h2
  exact ⟨e2 ++ e1, by rw [r1, r2, List.append_assoc]⟩

/-- The continuation loop only appends to (or compacts, in `log`) the
rows it was given: its pre-compaction trace extends the incoming log. -/
theorem cycleLoop_trace_extends (cfg : AppConfig) (gen : Nat → Str)
    (pickIdx : Nat → Nat) (summarizer : Str → Str) (now : Str) :
    ∀ (dialogs : List (Bool × Str)) (rawInput : Str) (log : List LogRecord)
      (session : List (Str × Str)) (genBase pickBase : Nat),
      ∃ ext, (cycleLoop cfg gen pickIdx summarizer now dialogs rawInput log
        session genBase pickBase).trace = log ++ ext := by
  intro dialogs
  induction dialogs with
  | nil =>
    intro rawInput log session genBase pickBase
    by_cases h : pyStrip rawInput = []
    · simp only [cycleLoop, if_pos h]
      exact extendsBy1 _ _
    · simp only [cycleLoop, if_neg h]
      exact extendsBy2 _ _ _
  | cons d rest ih =>
    intro rawInput log session genBase pickBase
    obtain ⟨sent, txt⟩ := d
    by_cases h : pyStrip rawInput = []
    · rw [cycleLoop]
      simp only [if_pos h]
      exact extendsBy1 _ _
    · rw [cycleLoop]
      simp only [if_neg h]
      by_cases hs : sent = true
      · simp only [if_pos hs]
        exact extendsTrans (ih txt _ _ _ _) (extendsBy2 _ _ _)
      · simp only [if_neg hs]
        exact extendsTrans (extendsBy1 _ _) (extendsBy2 _ _ _)

/-- Claim C3 amended: `pick_action` falls back only for an *empty* list;
for a non-empty list it picks uniformly among the whitespace-free
entries when any exist (every such entry is reachable and nothing else
is returned) — a list of entirely-empty entries yields a uniform pick
from the original list, not the fallback; and in a cycle run with an
empty action list the fallback `扶正牛仔帽` is attached to the first
accepted reply (the first `cat` row appended by the cycle). -/
theorem C3_pick_action :
    (∀ (fb : Str) (i : Nat), pick_action [] fb i = fb) ∧
    (∀ (actions : List Str) (fb : Str) (i : Nat),
      actions.filter (fun item => pyStrip item ≠ []) ≠ [] →
      pick_action actions fb i ∈ actions.filter (fun item => pyStrip item ≠ [])) ∧
    (∀ (actions : List Str) (fb : Str) (j : Nat),
      j < (actions.filter (fun item => pyStrip item ≠ [])).length →
      pick_action actions fb j
        = (actions.filter (fun item => pyStrip item ≠ [])).getD j []) ∧
    (∀ (cfg : AppConfig) (gen : Nat → Str) (pickIdx : Nat → Nat)
      (summarizer : Str → Str) (now : Str) (notifyRes : Bool × Str × Bool)
      (dialogs : List (Bool × Str)) (log0 : List LogRecord),
      cfg.actions = [] →
      ∃ r, ((run_cycle cfg gen pickIdx summarizer now notifyRes dialogs
          log0).trace)[log0.length]?
        = some ⟨now, chars "cat", attach_action r defaultActionStr⟩) := by
  refine ⟨?_, ?_, ?_, ?_⟩
  · intro fb i
    simp [pick_action]
  · intro actions fb i hne
    have hact : actions ≠ [] := by
      intro h
      rw [h] at hne
      simp at hne
    simp only [pick_action, if_pos hact, if_pos hne]
    have hlen : 0 < (actions.filter (fun item => pyStrip item ≠ [])).length :=
      List.length_pos.mpr hne
    rw [List.getD_eq_getElem?_getD, List.getElem?_eq_getElem (Nat.mod_lt _ hlen)]
    exact List.getElem_mem _
  · intro actions fb j hj
    have hne : actions.filter (fun item => pyStrip item ≠ []) ≠ [] := by
      intro h
      rw [h] at hj
      simp at hj
    have hact : actions ≠ [] := by
      intro h
      rw [h] at hne
      simp at hne
    simp only [pick_action, if_pos hact, if_pos hne]
    rw [Nat.mod_eq_of_lt hj]
  · intro cfg gen pickIdx summarizer now notifyRes dialogs log0 hacts
    have hpick : ∀ i, pick_action cfg.actions defaultActionStr i
        = defaultActionStr := by
      intro i
      rw [hacts]
      simp [pick_action]
    refine ⟨(genValidate (fun i => clean_reply (gen i))
      (get_recent_cat_replies log0 (cfg.history_max_turns * 2))
      cfg.max_retries).1, ?_⟩
    have hget : ∀ ext : List LogRecord,
        (log0 ++ (⟨now, chars "cat",
            attach_action (genValidate (fun i => clean_reply (gen i))
              (get_recent_cat_replies log0 (cfg.history_max_turns * 2))
              cfg.max_retries).1 defaultActionStr⟩ :: ext))[log0.length]?
          = some ⟨now, chars "cat",
            attach_action (genValidate (fun i => clean_reply (gen i))
              (get_recent_cat_replies log0 (cfg.history_max_turns * 2))
              cfg.max_retries).1 defaultActionStr⟩ := by
      intro ext
      rw [List.getElem?_append_right le_rfl]
      simp
    simp only [run_cycle, hpick]
    by_cases hclick : notifyRes.2.2 = false
    · simp only [if_pos hclick]
      rw [List.append_assoc]
      exact hget _
    · simp only [if_neg hclick]
      by_cases hsent : notifyRes.1 = false
      · simp only [if_pos hsent]
        rw [List.append_assoc]
        exact hget _
      · simp only [if_neg hsent]
        obtain ⟨e, he⟩ := cycleLoop_trace_extends cfg gen pickIdx summarizer now
          dialogs notifyRes.2.1
          (log0 ++ [⟨now, chars "cat",
            attach_action (genValidate (fun i => clean_reply (gen i))
              (get_recent_cat_replies log0 (cfg.history_max_turns * 2))
              cfg.max_retries).1 defaultActionStr⟩])
          [(chars "cat", (genValidate (fun i => clean_reply (gen i))
            (get_recent_cat_replies log0 (cfg.history_max_turns * 2))
            cfg.max_retries).1)]
          (genValidate (fun i => clean_reply (gen i))
            (get_recent_cat_replies log0 (cfg.history_max_turns * 2))
            cfg.max_retries).2 2
        rw [he, List.append_assoc]
        exact hget _

/-- Witness for C3 amended: fallback for the empty list; membership and
reachability on `[" ", "a"]`; and the fallback attached to the first
`cat` row of a concrete cycle run with no configured actions. -/
theorem C3_pick_action_witness :
    pick_action [] (chars "x") 5 = chars "x" ∧
    pick_action [chars " ", chars "a"] (chars "x") 0
      ∈ [chars " ", chars "a"].filter (fun item => pyStrip item ≠ []) ∧
    pick_action [chars " ", chars "a"] (chars "x") 0
      = ([chars " ", chars "a"].filter (fun item => pyStrip item ≠ [])).getD 0 [] ∧
    (∃ r, ((run_cycle ⟨[], 3, 1, 400, 10, 5⟩ (fun _ => chars "喵") (fun _ => 0)
        (fun _ => chars "S") (chars "t") (false, [], false) [] []).trace)[0]?
      = some ⟨chars "t", chars "cat", attach_action r defaultActionStr⟩) :=
  ⟨C3_pick_action.1 (chars "x") 5,
   C3_pick_action.2.1 [chars " ", chars "a"] (chars "x") 0 (by decide),
   C3_pick_action.2.2.1 [chars " ", chars "a"] (chars "x") 0 (by decide),
   C3_pick_action.2.2.2 ⟨[], 3, 1, 400, 10, 5⟩ (fun _ => chars "喵")
     (fun _ => 0) (fun _ => chars "S") (chars "t") (false, [], false) [] []
     rfl⟩

/-! ## Claim C2 -/

/-- The stripped suffixes of `full` that start at a line boundary (the
start of the text or right after a newline).  A truncated context that
does not appear here starts with a mid-line fragment. -/
def lineStartSuffixes (full : Str) : List Str :=
  (List.range (full.length + 1)).filterMap (fun i =>
    if i = 0 ∨ full[i - 1]? = some '\n' then some (pyStrip (full.drop i))
    else none)

/-- Counterexample to C2 as stated: a single over-long line.  The
combined context `"user: aaaaaaaa"` exceeds `max_chars = 5`; the code
keeps the last 5 characters `"aaaaa"`, and since the tail holds no
newline, `split("\n", 1)[-1]` keeps the whole fragment — the returned
context starts mid-line. -/
theorem C2_counterexample :
    (combinedContext [⟨chars "t", chars "user", chars "aaaaaaaa"⟩] 1).length > 5 ∧
    build_history_context [⟨chars "t", chars "user", chars "aaaaaaaa"⟩] 1 5
      = chars "aaaaa" ∧
    build_history_context [⟨chars "t", chars "user", chars "aaaaaaaa"⟩] 1 5
      ≠ noneStr ∧
    build_history_context [⟨chars "t", chars "user", chars "aaaaaaaa"⟩] 1 5
      ∉ lineStartSuffixes
        (combinedContext [⟨chars "t", chars "user", chars "aaaaaaaa"⟩] 1) := by
  decide

/-- Where `afterFirstSepAux` cuts: just after the first occurrence of
the separator. -/
theorem afterFirstSepAux_spec (sep : Char) :
    ∀ s : Str, s.contains sep = true →
      ∃ j, j < s.length ∧ s[j]? = some sep ∧
        afterFirstSepAux sep s = s.drop (j + 1) := by
  intro s
  induction s with
  | nil => intro h; cases h
  | cons c rest ih =>
    intro h
    by_cases hc : c = sep
    · exact ⟨0, by simp [hc, afterFirstSepAux]⟩
    · have hrest : rest.contains sep = true := by
        rcases List.mem_cons.mp (containsMem.mp h) with hm | hm
        · exact absurd hm.symm hc
        · exact containsMem.mpr hm
      obtain ⟨j, hj, hjv, hje⟩ := ih hrest
      exact ⟨j + 1, by simpa using hj, by simpa using hjv,
        by simp [afterFirstSepAux, hc, hje]⟩

/-- Claim C2 amended: when the combined context exceeds `max_chars`
*and* the kept tail contains a newline, the returned context starts at a
line boundary of the combined text (or degenerates to the `无`
sentinel); when the tail holds no newline the entire mid-line tail is
returned, as the counterexample shows. -/
theorem C2_truncation_line_boundary (rows : List LogRecord)
    (max_turns max_chars : Nat)
    (hlen : (combinedContext rows max_turns).length > max_chars)
    (hnl : (lastChars max_chars (combinedContext rows max_turns)).contains '\n'
      = true) :
    build_history_context rows max_turns max_chars = noneStr ∨
    build_history_context rows max_turns max_chars
      ∈ lineStartSuffixes (combinedContext rows max_turns) := by
  by_cases hrows : rows = []
  · left
    simp [build_history_context, hrows]
  · simp only [build_history_context, if_neg hrows, if_pos hlen]
    set ctx := combinedContext rows max_turns with hctx
    have htail : ∃ k, lastChars max_chars ctx = ctx.drop k := by
      by_cases hmc : max_chars = 0
      · exact ⟨0, by simp [lastChars, pyTail, hmc]⟩
      · exact ⟨ctx.length - max_chars, by simp [lastChars, pyTail, hmc]⟩
    obtain ⟨k, hk⟩ := htail
    rw [hk] at hnl
    obtain ⟨j, hj, hjv, hje⟩ := afterFirstSepAux_spec '\n' (ctx.drop k) hnl
    have hsep : afterFirstSep '\n' (lastChars max_chars ctx)
        = ctx.drop (k + (j + 1)) := by
      rw [hk, afterFirstSep, if_pos hnl, hje, List.drop_drop]
    have hcv : ctx[k + j]? = some '\n' := by
      rw [List.getElem?_drop] at hjv
      exact hjv
    have hkj : k + j < ctx.length := by
      by_contra hge
      rw [List.getElem?_eq_none (by omega)] at hcv
      cases hcv
    split
    · exact Or.inl rfl
    · refine Or.inr ?_
      rw [hsep]
      refine List.mem_filterMap.mpr ⟨k + (j + 1), ?_, ?_⟩
      · exact List.mem_range.mpr (by omega)
      · rw [if_pos]
        right
        have : k + (j + 1) - 1 = k + j := by omega
        rw [this]
        exact hcv

/-- Witness for C2 amended: two history rows, tail cut inside the first
line; the returned context is the full second line, a line-boundary
suffix. -/
theorem C2_truncation_line_boundary_witness :
    build_history_context
      [⟨chars "t", chars "user", chars "aaa"⟩,
       ⟨chars "t", chars "user", chars "bb"⟩] 1 12 = noneStr ∨
    build_history_context
      [⟨chars "t", chars "user", chars "aaa"⟩,
       ⟨chars "t", chars "user", chars "bb"⟩] 1 12
      ∈ lineStartSuffixes (combinedContext
        [⟨chars "t", chars "user", chars "aaa"⟩,
         ⟨chars "t", chars "user", chars "bb"⟩] 1) :=
  C2_truncation_line_boundary _ 1 12 (by decide) (by decide)

/-! ## Claim C5 -/

/-- Counterexample to C5 as stated: `normalize(".\n.")` is the newline
character (the dots are removed, but the interior newline survives the
initial `strip()` because the ends were dots), while a second
application strips the now-exposed newline away. -/
theorem C5_counterexample :
    normalize_for_compare (chars ".\n.") = chars "\n" ∧
    normalize_for_compare (normalize_for_compare (chars ".\n."))
      ≠ normalize_for_compare (chars ".\n.") := by decide

/-- `contains = false` is non-membership. -/
theorem contains_false_iff {l : List Char} {c : Char} :
    l.contains c = false ↔ c ∉ l := by
  constructor
  · intro h hm
    rw [containsMem.mpr hm] at h
    cases h
  · intro h
    cases hb : l.contains c with
    | false => rfl
    | true => exact absurd (containsMem.mp hb) h

/-- Stripping characters from the ends keeps only characters of the
original text. -/
theorem mem_pyStripChars {chs : List Char} {s : Str} {c : Char}
    (h : c ∈ pyStripChars chs s) : c ∈ s := by
  unfold pyStripChars at h
  rw [List.mem_reverse] at h
  have h1 := (List.dropWhile_sublist _).mem h
  rw [List.mem_reverse] at h1
  exact (List.dropWhile_sublist _).mem h1

/-- An ASCII upper-case character lowers to its code point plus 32. -/
theorem toLower_upper_toNat {c : Char} (h : c.toNat ≥ 65 ∧ c.toNat ≤ 90) :
    (Char.toLower c).toNat = c.toNat + 32 := by
  have hv : (c.toNat + 32).isValidChar := Or.inl (by omega)
  simp only [Char.toLower]
  rw [if_pos h, Char.ofNat, dif_pos hv]
  rfl

/-- Any other character is fixed by `toLower`. -/
theorem toLower_id_of_not_upper {c : Char} (h : ¬(c.toNat ≥ 65 ∧ c.toNat ≤ 90)) :
    Char.toLower c = c := by
  simp only [Char.toLower]
  rw [if_neg h]

/-- `toLower` either fixes a character or yields an ASCII lower-case
letter. -/
theorem toLower_eq_or (c : Char) :
    Char.toLower c = c ∨
    (97 ≤ (Char.toLower c).toNat ∧ (Char.toLower c).toNat ≤ 122) := by
  by_cases h : c.toNat ≥ 65 ∧ c.toNat ≤ 90
  · right
    rw [toLower_upper_toNat h]
    omega
  · left
    exact toLower_id_of_not_upper h

/-- `toLower` is idempotent. -/
theorem toLower_idem (c : Char) :
    Char.toLower (Char.toLower c) = Char.toLower c := by
  rcases toLower_eq_or c with he | hr
  · rw [he]
    exact he
  · exact toLower_id_of_not_upper (by omega)

/-- A character whose lower case form lies in the punctuation list was
itself in the punctuation list (no punctuation mark is an ASCII
lower-case letter). -/
theorem toLower_mem_punct {c : Char} (hm : Char.toLower c ∈ punctList) :
    c ∈ punctList := by
  rcases toLower_eq_or c with he | hr
  · rwa [he] at hm
  · exfalso
    have hout : ∀ p ∈ punctList, ¬(97 ≤ p.toNat ∧ p.toNat ≤ 122) := by decide
    exact hout _ hm hr

/-- Characters surviving the punctuation-removal fold come from the
original text. -/
theorem mem_foldl_filter : ∀ (l : List Char) (s : Str) (c : Char),
    c ∈ l.foldl (fun acc ch => acc.filter (fun d => d ≠ ch)) s → c ∈ s := by
  intro l
  induction l with
  | nil => intro s c h; exact h
  | cons p ps ih =>
    intro s c h
    simp only [List.foldl_cons] at h
    exact (List.mem_filter.mp (ih _ _ h)).1

/-- Characters surviving the punctuation-removal fold are none of the
removed characters. -/
theorem not_mem_of_foldl_filter : ∀ (l : List Char) (s : Str) (c : Char),
    c ∈ l.foldl (fun acc ch => acc.filter (fun d => d ≠ ch)) s → c ∉ l := by
  intro l
  induction l with
  | nil => intro s c _ hm; cases hm
  | cons p ps ih =>
    intro s c h
    simp only [List.foldl_cons] at h
    have hps := ih _ _ h
    have hmem := mem_foldl_filter ps _ _ h
    have hne : c ≠ p := by simpa using (List.mem_filter.mp hmem).2
    intro hm
    rcases List.mem_cons.mp hm with rfl | hm2
    · exact hne rfl
    · exact hps hm2

/-- The removal fold is the identity when nothing to remove occurs. -/
theorem foldl_filter_eq_self : ∀ (l : List Char) (s : Str),
    (∀ c ∈ s, c ∉ l) →
    l.foldl (fun acc ch => acc.filter (fun d => d ≠ ch)) s = s := by
  intro l
  induction l with
  | nil => intro s _; rfl
  | cons p ps ih =>
    intro s h
    simp only [List.foldl_cons]
    have hf : s.filter (fun d => d ≠ p) = s :=
      List.filter_eq_self.mpr (fun a ha => by
        simp only [ne_eq, decide_eq_true_eq]
        intro he
        exact h a ha (by simp [he]))
    rw [hf]
    exact ih s (fun c hc hm => h c hc (by simp [hm]))

/-- The depth scan never emits a parenthesis. -/
theorem mem_dropParens : ∀ (s : Str) (d : Nat) (c : Char),
    c ∈ dropParens s d → c ∈ s ∧ c ≠ '(' ∧ c ≠ ')' := by
  intro s
  induction s with
  | nil => intro d c h; cases h
  | cons x rest ih =>
    intro d c h
    by_cases hx1 : x = '('
    · simp only [dropParens, if_pos hx1] at h
      obtain ⟨hm, hp⟩ := ih _ _ h
      exact ⟨by simp [hm], hp⟩
    · by_cases hx2 : x = ')'
      · simp only [dropParens, if_neg hx1, if_pos hx2] at h
        obtain ⟨hm, hp⟩ := ih _ _ h
        exact ⟨by simp [hm], hp⟩
      · by_cases hd : d = 0
        · simp only [dropParens, if_neg hx1, if_neg hx2, if_pos hd] at h
          rcases List.mem_cons.mp h with rfl | hm2
          · exact ⟨by simp, hx1, hx2⟩
          · obtain ⟨hm, hp⟩ := ih _ _ hm2
            exact ⟨by simp [hm], hp⟩
        · simp only [dropParens, if_neg hx1, if_neg hx2, if_neg hd] at h
          obtain ⟨hm, hp⟩ := ih _ _ h
          exact ⟨by simp [hm], hp⟩

/-- `strip_action` never returns text holding both an opening and a
closing parenthesis. -/
theorem strip_action_one_paren (x : Str) :
    (strip_action x).contains '(' = false ∨
    (strip_action x).contains ')' = false := by
  unfold strip_action
  split
  · left
    rw [contains_false_iff]
    intro hm
    exact (mem_dropParens x 0 '(' (mem_pyStripChars hm)).2.1 rfl
  · rename_i hno
    rw [not_and_or] at hno
    rcases hno with h | h
    · left
      rw [contains_false_iff]
      intro hm
      exact h (containsMem.mpr (mem_pyStripChars hm))
    · right
      rw [contains_false_iff]
      intro hm
      exact h (containsMem.mpr (mem_pyStripChars hm))

/-- A character outside the lower-case ASCII range that is absent from
`strip_action`'s output stays absent from the normalized text. -/
theorem normalize_contains_false_lift (x : Str) (p : Char)
    (hp : ¬(97 ≤ p.toNat ∧ p.toNat ≤ 122))
    (h : (strip_action x).contains p = false) :
    (normalize_for_compare x).contains p = false := by
  rw [contains_false_iff]
  intro hm
  obtain ⟨d, hd, hdp⟩ := List.mem_map.mp hm
  have hdz : d ∈ strip_action x := mem_foldl_filter punctList _ _ hd
  have hdP : d = p := by
    rcases toLower_eq_or d with he | hr
    · rw [← hdp, he]
    · rw [hdp] at hr
      exact absurd hr hp
  rw [hdP] at hdz
  exact (contains_false_iff.mp h) hdz

/-- The normalized text never holds both parentheses. -/
theorem normalize_one_paren (x : Str) :
    (normalize_for_compare x).contains '(' = false ∨
    (normalize_for_compare x).contains ')' = false := by
  rcases strip_action_one_paren x with h | h
  · exact Or.inl (normalize_contains_false_lift x '(' (by decide) h)
  · exact Or.inr (normalize_contains_false_lift x ')' (by decide) h)

/-- The normalized text holds no character of the punctuation list. -/
theorem normalize_no_punct (x : Str) :
    ∀ c ∈ normalize_for_compare x, c ∉ punctList := by
  intro c hc
  obtain ⟨d, hd, hdc⟩ := List.mem_map.mp hc
  have hdn : d ∉ punctList := not_mem_of_foldl_filter punctList _ _ hd
  intro hcP
  exact hdn (toLower_mem_punct (hdc ▸ hcP))

/-- Every character of the normalized text is fixed by `toLower`. -/
theorem normalize_lower_fixed (x : Str) :
    ∀ c ∈ normalize_for_compare x, Char.toLower c = c := by
  intro c hc
  obtain ⟨d, _, hdc⟩ := List.mem_map.mp hc
  rw [← hdc]
  exact toLower_idem d

/-- Claim C5 amended: a second `normalize_for_compare` is exactly a
whitespace `strip()` of the first — so normalization is idempotent
precisely when its output carries no leading or trailing whitespace
(the counterexample's `"\n"` shows a bare idempotence claim fails,
because the punctuation list removes spaces but no other whitespace). -/
theorem C5_normalize_strip (x : Str) :
    normalize_for_compare (normalize_for_compare x)
      = pyStrip (normalize_for_compare x) := by
  set y := normalize_for_compare x with hy
  have hsa : strip_action y = pyStrip y := by
    unfold strip_action
    rw [if_neg]
    intro hand
    rcases normalize_one_paren x with h | h
    · rw [← hy] at h
      rw [h] at hand
      cases hand.1
    · rw [← hy] at h
      rw [h] at hand
      cases hand.2
  show lowerStr (remPunct (strip_action y)) = pyStrip y
  rw [hsa]
  have hrp : remPunct (pyStrip y) = pyStrip y := by
    unfold remPunct
    apply foldl_filter_eq_self
    intro c hc
    exact normalize_no_punct x c (by rw [← hy]; exact mem_pyStripChars hc)
  rw [hrp]
  unfold lowerStr
  have hfix : ∀ c ∈ pyStrip y, Char.toLower c = c := fun c hc =>
    normalize_lower_fixed x c (by rw [← hy]; exact mem_pyStripChars hc)
  calc List.map Char.toLower (pyStrip y)
      = List.map id (pyStrip y) := List.map_congr_left (fun a ha => hfix a ha)
    _ = pyStrip y := List.map_id _

/-! ## Claim C1 -/

/-- Counterexample to C1 as stated: a cycle ending on the terminal
"user never acknowledges the notification" branch returns at
app.py line 276, before `summarize_logs_if_needed` (line 333) is ever
reached — even with `max_records = 0`, where the check would have
compacted the two persisted rows, the log is left untouched. -/
theorem C1_counterexample :
    (run_cycle ⟨[], 3, 1, 400, 0, 1⟩ (fun _ => chars "喵") (fun _ => 0)
      (fun _ => chars "S") (chars "t") (false, [], false) [] []).outcome
      = CycleOutcome.notClicked ∧
    (run_cycle ⟨[], 3, 1, 400, 0, 1⟩ (fun _ => chars "喵") (fun _ => 0)
      (fun _ => chars "S") (chars "t") (false, [], false) [] []).summarized
      = false ∧
    (run_cycle ⟨[], 3, 1, 400, 0, 1⟩ (fun _ => chars "喵") (fun _ => 0)
      (fun _ => chars "S") (chars "t") (false, [], false) [] []).log
      = (run_cycle ⟨[], 3, 1, 400, 0, 1⟩ (fun _ => chars "喵") (fun _ => 0)
        (fun _ => chars "S") (chars "t") (false, [], false) [] []).trace ∧
    (run_cycle ⟨[], 3, 1, 400, 0, 1⟩ (fun _ => chars "喵") (fun _ => 0)
      (fun _ => chars "S") (chars "t") (false, [], false) [] []).log.length
      > 0 := by decide

/-- In the continuation loop, the compaction check runs exactly on the
two `break` terminals (whitespace-only input and declined continuation
dialog), and when it runs the final log is the compaction of the
appended trace. -/
theorem cycleLoop_summarized_spec (cfg : AppConfig) (gen : Nat → Str)
    (pickIdx : Nat → Nat) (summarizer : Str → Str) (now : Str) :
    ∀ (dialogs : List (Bool × Str)) (rawInput : Str) (log : List LogRecord)
      (session : List (Str × Str)) (genBase pickBase : Nat),
      ((cycleLoop cfg gen pickIdx summarizer now dialogs rawInput log session
          genBase pickBase).summarized = true ↔
        ((cycleLoop cfg gen pickIdx summarizer now dialogs rawInput log session
            genBase pickBase).outcome = CycleOutcome.emptyInput ∨
         (cycleLoop cfg gen pickIdx summarizer now dialogs rawInput log session
            genBase pickBase).outcome = CycleOutcome.contDeclined)) ∧
      ((cycleLoop cfg gen pickIdx summarizer now dialogs rawInput log session
          genBase pickBase).summarized = true →
        (cycleLoop cfg gen pickIdx summarizer now dialogs rawInput log session
            genBase pickBase).log
          = summarize_logs_if_needed summarizer
            (cycleLoop cfg gen pickIdx summarizer now dialogs rawInput log
              session genBase pickBase).trace cfg.max_records
            cfg.compress_batch now) ∧
      ((cycleLoop cfg gen pickIdx summarizer now dialogs rawInput log session
          genBase pickBase).summarized = false →
        (cycleLoop cfg gen pickIdx summarizer now dialogs rawInput log session
            genBase pickBase).log
          = (cycleLoop cfg gen pickIdx summarizer now dialogs rawInput log
              session genBase pickBase).trace) := by
  intro dialogs
  induction dialogs with
  | nil =>
    intro rawInput log session genBase pickBase
    by_cases h : pyStrip rawInput = []
    · rw [cycleLoop]
      simp only [if_pos h]
      refine ⟨?_, ?_, ?_⟩ <;> simp
    · rw [cycleLoop]
      simp only [if_neg h]
      refine ⟨?_, ?_, ?_⟩ <;> simp
  | cons d rest ih =>
    intro rawInput log session genBase pickBase
    obtain ⟨sent, txt⟩ := d
    by_cases h : pyStrip rawInput = []
    · rw [cycleLoop]
      simp only [if_pos h]
      refine ⟨?_, ?_, ?_⟩ <;> simp
    · by_cases hs : sent = true
      · rw [cycleLoop]
        simp only [if_neg h, if_pos hs]
        exact ih txt _ _ _ _
      · rw [cycleLoop]
        simp only [if_neg h, if_neg hs]
        refine ⟨?_, ?_, ?_⟩ <;> simp

/-- Claim C1 amended: the Turn Engine invokes the compaction check
exactly on the terminal transitions reached through the continuation
loop — whitespace-only input and a declined continuation dialog.  The
two first-turn terminals (notification never acknowledged, first dialog
declined) return before the check; when the check runs, the final log is
the compaction of the appended trace, otherwise the log is exactly the
appended trace. -/
theorem C1_compaction_on_terminal (cfg : AppConfig) (gen : Nat → Str)
    (pickIdx : Nat → Nat) (summarizer : Str → Str) (now : Str)
    (notifyRes : Bool × Str × Bool) (dialogs : List (Bool × Str))
    (log0 : List LogRecord) :
    ((run_cycle cfg gen pickIdx summarizer now notifyRes dialogs
        log0).summarized = true ↔
      ((run_cycle cfg gen pickIdx summarizer now notifyRes dialogs
          log0).outcome = CycleOutcome.emptyInput ∨
       (run_cycle cfg gen pickIdx summarizer now notifyRes dialogs
          log0).outcome = CycleOutcome.contDeclined)) ∧
    ((run_cycle cfg gen pickIdx summarizer now notifyRes dialogs
        log0).summarized = true →
      (run_cycle cfg gen pickIdx summarizer now notifyRes dialogs log0).log
        = summarize_logs_if_needed summarizer
          (run_cycle cfg gen pickIdx summarizer now notifyRes dialogs
            log0).trace cfg.max_records cfg.compress_batch now) ∧
    ((run_cycle cfg gen pickIdx summarizer now notifyRes dialogs
        log0).summarized = false →
      (run_cycle cfg gen pickIdx summarizer now notifyRes dialogs log0).log
        = (run_cycle cfg gen pickIdx summarizer now notifyRes dialogs
            log0).trace) := by
  simp only [run_cycle]
  by_cases hclick : notifyRes.2.2 = false
  · simp only [if_pos hclick]
    refine ⟨?_, ?_, ?_⟩ <;> simp
  · simp only [if_neg hclick]
    by_cases hsent : notifyRes.1 = false
    · simp only [if_pos hsent]
      refine ⟨?_, ?_, ?_⟩ <;> simp
    · simp only [if_neg hsent]
      exact cycleLoop_summarized_spec cfg gen pickIdx summarizer now dialogs
        notifyRes.2.1 _ _ _ 2

/-- Witness for C1 amended: a cycle ending on whitespace-only input
compacts its trace (here `max_records = 0` makes the compaction fire),
while a cycle whose notification is never acknowledged leaves the log
exactly the appended trace. -/
theorem C1_compaction_on_terminal_witness :
    (run_cycle ⟨[], 1, 1, 400, 0, 1⟩ (fun _ => chars "喵") (fun _ => 0)
      (fun _ => chars "S") (chars "t") (true, chars " ", true) [] []).log
      = summarize_logs_if_needed (fun _ => chars "S")
        (run_cycle ⟨[], 1, 1, 400, 0, 1⟩ (fun _ => chars "喵") (fun _ => 0)
          (fun _ => chars "S") (chars "t") (true, chars " ", true) [] []).trace
        0 1 (chars "t") ∧
    (run_cycle ⟨[], 1, 1, 400, 0, 1⟩ (fun _ => chars "喵") (fun _ => 0)
      (fun _ => chars "S") (chars "t") (false, [], false) [] []).log
      = (run_cycle ⟨[], 1, 1, 400, 0, 1⟩ (fun _ => chars "喵") (fun _ => 0)
        (fun _ => chars "S") (chars "t") (false, [], false) [] []).trace :=
  ⟨(C1_compaction_on_terminal ⟨[], 1, 1, 400, 0, 1⟩ (fun _ => chars "喵")
      (fun _ => 0) (fun _ => chars "S") (chars "t") (true, chars " ", true) []
      []).2.1 (by decide),
   (C1_compaction_on_terminal ⟨[], 1, 1, 400, 0, 1⟩ (fun _ => chars "喵")
      (fun _ => 0) (fun _ => chars "S") (chars "t") (false, [], false) []
      []).2.2 (by decide)⟩
